import Mathlib

/-!
# Verification of the skene-cli analysis pipeline engine

A shallow embedding of the pipeline core of the repository
(`engine/src/strategies/{context.rs, mod.rs, steps/*.rs}`): the analysis
context, the three step kinds (file selection, file reading, model
analysis), the pipeline executor, and the JSON extraction utility.

Modelling conventions:
* Rust `String` is Lean `String`; where Rust works with byte indices we
  work with `List Char` positions.  All the needles the code searches for
  (`'['`, `']'`, "```json", "```", `'{'`, `'}'`) are ASCII, so a byte
  position found by Rust corresponds to a unique char position and byte
  slicing at those positions equals char-list slicing; the one place where
  the byte/char distinction is observable — the fixed 50000-byte content
  truncation slice — is modelled exactly, via `Char.utf8Size`.
* `serde_json::Value` is the inductive `Value`; JSON numbers are kept as
  their lexemes (no claim compares numerals of distinct spellings).
  Object fields are kept in textual order and `serde_json`'s map-specific
  behaviour (sorted keys, duplicate-key last-wins) is not modelled; no
  claim depends on it.  `\uXXXX` surrogate pairs in string literals are
  rejected rather than combined; no claim uses them.
* `serde_json::from_str` is the executable parser `parseJsonL` below.
* Fallible Rust functions return `Except String`; a Rust panic (an
  out-of-bounds byte slice) is a distinguished `crash` outcome.
* The `HashSet` iteration order in the file-selection step is an explicit
  environment parameter `hashEnum`, constrained to enumerate the set of
  inserted elements (a duplicate-free permutation of the deduplication).
* The text-generation and filesystem capabilities are pure functions in an
  `Env`; the number of `generate_content` invocations is returned next to
  each outcome so that "zero text-generation calls" is expressible.
-/

namespace Skene

/-- The `serde_json::Value` data model.  Numbers are kept as lexemes. -/
inductive Value where
  | null : Value
  | bool : Bool → Value
  | num : String → Value
  | str : String → Value
  | arr : List Value → Value
  | obj : List (String × Value) → Value
deriving Repr

/-! ## Character-level text utilities -/

/-- JSON/Rust whitespace relevant here: space, tab, LF, CR. -/
def isWsChar (c : Char) : Bool :=
  c = ' ' || c = '\t' || c = '\n' || c = '\r'

/-- `str::trim` (on the whitespace characters any input of interest uses). -/
def trimL (cs : List Char) : List Char :=
  ((cs.dropWhile isWsChar).reverse.dropWhile isWsChar).reverse

/-- Whether `hay` starts with `needle` (char-wise). -/
def startsWithL : List Char → List Char → Bool
  | _, [] => true
  | [], _ :: _ => false
  | h :: hs, n :: ns => h = n && startsWithL hs ns

/-- `str::find(needle)`: char position of the first occurrence. -/
def findSub : List Char → List Char → Option Nat
  | [], needle => if startsWithL [] needle then some 0 else none
  | c :: hs, needle =>
    if startsWithL (c :: hs) needle then some 0
    else (findSub hs needle).map (· + 1)

/-- `str::rfind(pred)`: char position of the last matching char. -/
def rfindIdx (p : Char → Bool) (cs : List Char) : Option Nat :=
  (List.findIdx? p cs.reverse).map (fun i => cs.length - 1 - i)

/-- Does the text start with `'{'` or `'['`? -/
def startsBrace : List Char → Bool
  | [] => false
  | c :: _ => c = '{' || c = '['

/-! ## A JSON parser standing for `serde_json::from_str` -/

/-- Skip JSON whitespace. -/
def skipWs (cs : List Char) : List Char := cs.dropWhile isWsChar

/-- Value of a hex digit. -/
def hexVal? (c : Char) : Option Nat :=
  if '0' ≤ c ∧ c ≤ '9' then some (c.toNat - 48)
  else if 'a' ≤ c ∧ c ≤ 'f' then some (c.toNat - 87)
  else if 'A' ≤ c ∧ c ≤ 'F' then some (c.toNat - 55)
  else none

/-- Single-character JSON escapes. -/
def escChar (c : Char) : Option Char :=
  if c = '"' then some '"'
  else if c = '\\' then some '\\'
  else if c = '/' then some '/'
  else if c = 'b' then some (Char.ofNat 8)
  else if c = 'f' then some (Char.ofNat 12)
  else if c = 'n' then some '\n'
  else if c = 'r' then some '\r'
  else if c = 't' then some '\t'
  else none

/-- Parse the body of a JSON string literal (after the opening quote);
returns the decoded characters and the input after the closing quote. -/
def parseStrChars : List Char → Option (List Char × List Char)
  | [] => none
  | c :: rest =>
    if c = '"' then some ([], rest)
    else if c = '\\' then
      match rest with
      | 'u' :: h1 :: h2 :: h3 :: h4 :: rest2 =>
        match hexVal? h1, hexVal? h2, hexVal? h3, hexVal? h4 with
        | some a, some b, some d, some e =>
          let n := ((a * 16 + b) * 16 + d) * 16 + e
          if 0xD800 ≤ n ∧ n ≤ 0xDFFF then none
          else (parseStrChars rest2).map (fun r => (Char.ofNat n :: r.1, r.2))
        | _, _, _, _ => none
      | e :: rest2 =>
        match escChar e with
        | some d => (parseStrChars rest2).map (fun r => (d :: r.1, r.2))
        | none => none
      | [] => none
    else if c.toNat < 32 then none
    else (parseStrChars rest).map (fun r => (c :: r.1, r.2))

/-- Fraction part of a JSON number (possibly empty). -/
def parseFrac : List Char → Option (List Char × List Char)
  | '.' :: t =>
    let p := t.span Char.isDigit
    if p.1 = [] then none else some ('.' :: p.1, p.2)
  | cs => some ([], cs)

/-- Exponent part of a JSON number (possibly empty). -/
def parseExp : List Char → Option (List Char × List Char)
  | [] => some ([], [])
  | c :: t =>
    if c = 'e' ∨ c = 'E' then
      let sp : List Char × List Char :=
        match t with
        | '+' :: u => (['+'], u)
        | '-' :: u => (['-'], u)
        | _ => ([], t)
      let p := sp.2.span Char.isDigit
      if p.1 = [] then none else some (c :: (sp.1 ++ p.1), p.2)
    else some ([], c :: t)

/-- Parse a JSON number, keeping its lexeme. -/
def parseNumber (cs : List Char) : Option (Value × List Char) :=
  let sp : List Char × List Char :=
    match cs with
    | '-' :: t => (['-'], t)
    | _ => ([], cs)
  match sp.2 with
  | [] => none
  | c :: t =>
    if ¬ c.isDigit then none
    else
      let ip : List Char × List Char :=
        if c = '0' then (['0'], t) else (c :: t).span Char.isDigit
      match parseFrac ip.2 with
      | none => none
      | some (fp, afterFrac) =>
        match parseExp afterFrac with
        | none => none
        | some (ep, rest) =>
          some (.num (String.mk (sp.1 ++ ip.1 ++ fp ++ ep)), rest)

mutual

/-- Fuel-indexed parser for one JSON value. -/
def parseValueF : Nat → List Char → Option (Value × List Char)
  | 0, _ => none
  | Nat.succ fuel, cs =>
    match cs with
    | [] => none
    | c :: rest =>
      if c = 'n' then
        match rest with
        | 'u' :: 'l' :: 'l' :: r => some (.null, r)
        | _ => none
      else if c = 't' then
        match rest with
        | 'r' :: 'u' :: 'e' :: r => some (.bool true, r)
        | _ => none
      else if c = 'f' then
        match rest with
        | 'a' :: 'l' :: 's' :: 'e' :: r => some (.bool false, r)
        | _ => none
      else if c = '"' then
        (parseStrChars rest).map (fun r => (.str (String.mk r.1), r.2))
      else if c = '[' then
        match skipWs rest with
        | ']' :: r => some (.arr [], r)
        | cs2 =>
          match parseElemsF fuel cs2 with
          | some (vs, r) => some (.arr vs, r)
          | none => none
      else if c = '{' then
        match skipWs rest with
        | '}' :: r => some (.obj [], r)
        | cs2 =>
          match parseMembersF fuel cs2 with
          | some (ms, r) => some (.obj ms, r)
          | none => none
      else parseNumber (c :: rest)

/-- Fuel-indexed parser for the elements of a non-empty JSON array. -/
def parseElemsF : Nat → List Char → Option (List Value × List Char)
  | 0, _ => none
  | Nat.succ fuel, cs =>
    match parseValueF fuel cs with
    | none => none
    | some (v, rest) =>
      match skipWs rest with
      | ',' :: r2 => (parseElemsF fuel (skipWs r2)).map (fun p => (v :: p.1, p.2))
      | ']' :: r2 => some ([v], r2)
      | _ => none

/-- Fuel-indexed parser for the members of a non-empty JSON object. -/
def parseMembersF : Nat → List Char → Option (List (String × Value) × List Char)
  | 0, _ => none
  | Nat.succ fuel, cs =>
    match cs with
    | '"' :: rest =>
      match parseStrChars rest with
      | none => none
      | some (k, r1) =>
        match skipWs r1 with
        | ':' :: r2 =>
          match parseValueF fuel (skipWs r2) with
          | none => none
          | some (v, r3) =>
            match skipWs r3 with
            | ',' :: r4 =>
              (parseMembersF fuel (skipWs r4)).map
                (fun p => ((String.mk k, v) :: p.1, p.2))
            | '}' :: r4 => some ([(String.mk k, v)], r4)
            | _ => none
        | _ => none
    | _ => none

end

/-- `serde_json::from_str::<Value>` on a char list: one JSON value
surrounded by nothing but whitespace. -/
def parseJsonL (cs : List Char) : Option Value :=
  match parseValueF (2 * cs.length + 2) (skipWs cs) with
  | some (v, rest) => if skipWs rest = [] then some v else none
  | none => none

/-- `serde_json::from_str::<Value>` on a string. -/
def parseJson (s : String) : Option Value := parseJsonL s.data

/-! ## The JSON extractor (`extract_json` in `steps/analyze.rs`) -/

/-- Lift a parse outcome to the extractor's result type; the `?` operator
in the Rust turns a `serde_json` failure into the function's own error. -/
def jsonRes : Option Value → Except String Value
  | some v => .ok v
  | none => .error "invalid JSON"

/-- Tier 4 of `extract_json`: the span from the first `'{'`/`'['` to the
last `'}'`/`']'`, parsed when the closer is strictly after the opener. -/
def extractTier4 (cs : List Char) : Except String Value :=
  match List.findIdx? (fun c => c = '{' || c = '[') cs with
  | some start =>
    match rfindIdx (fun c => c = '}' || c = ']') cs with
    | some stop =>
      if start < stop then jsonRes (parseJsonL ((cs.drop start).take (stop + 1 - start)))
      else .error "No JSON found"
    | none => .error "No JSON found"
  | none => .error "No JSON found"

/-- Tier 3 of `extract_json`: an untagged fenced block whose trimmed
interior starts with `'{'` or `'['`; unlike tiers 1 and 2, a parse
failure here falls through to tier 4. -/
def extractTier3 (cs : List Char) : Except String Value :=
  match findSub cs "```".data with
  | some start =>
    let afterStart := cs.drop (start + 3)
    match findSub afterStart "```".data with
    | some stop =>
      let content := trimL (afterStart.take stop)
      if startsBrace content then
        match parseJsonL content with
        | some v => .ok v
        | none => extractTier4 cs
      else extractTier4 cs
    | none => extractTier4 cs
  | none => extractTier4 cs

/-- `extract_json` from `steps/analyze.rs`: the four-tier best-effort
recovery of a JSON value from model output text. -/
def extractJson (text : String) : Except String Value :=
  let cs := trimL text.data
  if startsBrace cs then jsonRes (parseJsonL cs)
  else
    match findSub cs "```json".data with
    | some start =>
      let afterStart := cs.drop (start + 7)
      match findSub afterStart "```".data with
      | some stop => jsonRes (parseJsonL (afterStart.take stop))
      | none => extractTier3 cs
    | none => extractTier3 cs

/-- Whether extraction fails (the caller then stores the raw text). -/
def extractionFails (text : String) : Bool :=
  match extractJson text with
  | .ok _ => false
  | .error _ => true

/-! ## Context store (`strategies/context.rs`) -/

/-- `AnalysisMetadata`. -/
structure AnalysisMetadata where
  model_name : String
  provider_name : String
  total_steps : Nat
  files_read : List String
  tokens_used : Nat
deriving Repr, DecidableEq

/-- `AnalysisMetadata::default()`. -/
def AnalysisMetadata.default : AnalysisMetadata :=
  { model_name := "", provider_name := "", total_steps := 0
    files_read := [], tokens_used := 0 }

/-- `AnalysisContext`; the `HashMap<String, Value>` is modelled as its
lookup function (`HashMap` equality is key-value equality). -/
structure AnalysisContext where
  request : String
  data : String → Option Value
  metadata : AnalysisMetadata

/-- `AnalysisContext::new`. -/
def AnalysisContext.new (request : String) : AnalysisContext :=
  { request, data := fun _ => none, metadata := AnalysisMetadata.default }

/-- `AnalysisContext::set`: unconditional insert-or-overwrite. -/
def AnalysisContext.set (ctx : AnalysisContext) (key : String) (v : Value) :
    AnalysisContext :=
  { ctx with data := fun k => if k = key then some v else ctx.data k }

/-- `AnalysisContext::get`. -/
def AnalysisContext.get (ctx : AnalysisContext) (key : String) : Option Value :=
  ctx.data key

/-! ## The execution environment -/

/-- The capabilities a pipeline run consumes, as pure functions: the
`CodebaseExplorer` (`search_files`, `read_file`), the `LLMClient`
(`generate_content`, model/provider identifiers), plus `hashEnum`, the
otherwise-unobservable iteration order of the `HashSet` used by the
file-selection step (constrained, where a claim needs it, to enumerate
the set of inserted elements). -/
structure Env where
  searchFiles : String → Except String (List String)
  readFile : String → Except String String
  generateContent : String → Except String String
  modelName : String
  providerName : String
  hashEnum : List String → List String

/-- A step/run outcome: success, a propagated `anyhow` error, or a Rust
panic (`crash`). -/
inductive StepOutcome (α : Type) where
  | ok : α → StepOutcome α
  | fail : String → StepOutcome α
  | crash : StepOutcome α
deriving Repr

/-! ## File selection (`steps/select_files.rs`) -/

/-- The pattern loop of `SelectFilesStep::execute`: each pattern is
searched independently and the matches accumulated (the `?` on
`search_files` aborts on the first failing pattern). -/
def collectMatches (env : Env) : List String → Except String (List String)
  | [] => .ok []
  | p :: ps =>
    match env.searchFiles p with
    | .error e => .error e
    | .ok ms =>
      match collectMatches env ps with
      | .error e => .error e
      | .ok rest => .ok (ms ++ rest)

/-- Lexicographic comparison of char lists by code point; on UTF-8 data
this coincides with Rust's byte-wise `Ord` for `String`. -/
def lexLeB : List Char → List Char → Bool
  | [], _ => true
  | _ :: _, [] => false
  | a :: as, b :: bs =>
    if a.toNat < b.toNat then true
    else if b.toNat < a.toNat then false
    else lexLeB as bs

/-- The string order used by `Vec::<String>::sort`. -/
def strLe (a b : String) : Prop := lexLeB a.data b.data = true

instance : DecidableRel strLe := fun a b =>
  inferInstanceAs (Decidable (lexLeB a.data b.data = true))

/-- `Vec::<String>::sort` (lexicographic). -/
def sortStrings (l : List String) : List String :=
  List.insertionSort strLe l

/-- The ranking prompt built in the over-budget branch. -/
def selectPrompt (prompt : String) (candidateList : List String) (maxFiles : Nat) :
    String :=
  prompt ++ "\n\nAvailable files:\n" ++ String.intercalate "\n" candidateList ++
    "\n\nSelect the most relevant files (max " ++ toString maxFiles ++
    "). Return strictly a JSON array of file paths."

/-- The response cleaning of `SelectFilesStep::execute`: trim, then slice
from the first `'['` to just after the last `']'` (with the respective
defaults `0` and `len`).  Rust byte-slices; when the slice start exceeds
its end — first `'['` more than one position past the last `']'` — the
slice panics, modelled as `none`. -/
def bracketSpan (response : String) : Option String :=
  let cs := trimL response.data
  let start := (List.findIdx? (fun c => c = '[') cs).getD 0
  let stop :=
    match rfindIdx (fun c => c = ']') cs with
    | some j => j + 1
    | none => cs.length
  if stop < start then none
  else some (String.mk ((cs.drop start).take (stop - start)))

/-- `serde_json::from_str::<Vec<String>>`. -/
def parseStringArray (s : String) : Option (List String) :=
  match parseJson s with
  | some (.arr xs) =>
    xs.mapM (fun v => match v with | .str t => some t | _ => none)
  | _ => none

/-- `SelectFilesStep::execute`, also counting `generate_content` calls. -/
def selectFilesExec (env : Env) (prompt : String) (patterns : List String)
    (maxFiles : Nat) (outputKey : String) (ctx : AnalysisContext) :
    StepOutcome AnalysisContext × Nat :=
  match collectMatches env patterns with
  | .error e => (.fail e, 0)
  | .ok allMatches =>
    let candidateList := sortStrings (env.hashEnum allMatches)
    if candidateList.length ≤ maxFiles then
      (.ok (ctx.set outputKey (.arr (candidateList.map .str))), 0)
    else
      match env.generateContent (selectPrompt prompt candidateList maxFiles) with
      | .error e => (.fail e, 1)
      | .ok response =>
        match bracketSpan response with
        | none => (.crash, 1)
        | some jsonPart =>
          match parseStringArray jsonPart with
          | some files => (.ok (ctx.set outputKey (.arr (files.map .str))), 1)
          | none =>
            (.ok (ctx.set outputKey
              (.arr ((candidateList.take maxFiles).map .str))), 1)

/-! ## File reading (`steps/read_files.rs`) -/

/-- UTF-8 byte length of a char list (`String::len` in Rust). -/
def utf8Len (cs : List Char) : Nat := (cs.map Char.utf8Size).sum

/-- `&content[..n]`: the chars making up the first `n` bytes; `none` when
byte `n` is not a char boundary (a Rust panic). -/
def takeBytes (n : Nat) : List Char → Option (List Char)
  | [] => if n = 0 then some [] else none
  | c :: cs =>
    if n = 0 then some []
    else if c.utf8Size ≤ n then (takeBytes (n - c.utf8Size) cs).map (c :: ·)
    else none

/-- The content-size ceiling of `ReadFilesStep`. -/
def truncLimit : Nat := 50000

/-- The truncation of `ReadFilesStep::execute`: contents over 50000
*bytes* are cut at byte 50000 and marked; `none` models the byte-slice
panic when byte 50000 falls inside a multi-byte char. -/
def rustTruncate (cs : List Char) : Option (List Char) :=
  if truncLimit < utf8Len cs then
    (takeBytes truncLimit cs).map (· ++ "... (truncated)".data)
  else some cs

/-- One iteration of the read loop: the `{path, content}` or
`{path, error}` record, `none` on the truncation panic. -/
def readOne (env : Env) (path : String) : Option Value :=
  match env.readFile path with
  | .ok content =>
    (rustTruncate content.data).map (fun t =>
      .obj [("path", .str path), ("content", .str (String.mk t))])
  | .error e => some (.obj [("path", .str path), ("error", .str e)])

/-- The read loop over all paths (stops at the first panic, as Rust does). -/
def readAll (env : Env) : List String → Option (List Value)
  | [] => some []
  | p :: ps =>
    match readOne env p with
    | none => none
    | some r =>
      match readAll env ps with
      | none => none
      | some rs => some (r :: rs)

/-- `serde_json::from_value::<Vec<String>>` (the exact serde error text is
not modelled; no claim mentions it). -/
def valueAsStringList : Value → Option (List String)
  | .arr xs => xs.mapM (fun v => match v with | .str t => some t | _ => none)
  | _ => none

/-- `ReadFilesStep::execute`. -/
def readFilesExec (env : Env) (sourceKey outputKey : String)
    (ctx : AnalysisContext) : StepOutcome AnalysisContext × Nat :=
  match ctx.get sourceKey with
  | none => (.fail ("Key not found: " ++ sourceKey), 0)
  | some v =>
    match valueAsStringList v with
    | none => (.fail "could not deserialize the file list", 0)
    | some files =>
      match readAll env files with
      | none => (.crash, 0)
      | some results => (.ok (ctx.set outputKey (.arr results)), 0)

/-! ## Model analysis (`steps/analyze.rs`) -/

/-- First-match field lookup in an object member list. -/
def getField : List (String × Value) → String → Option Value
  | [], _ => none
  | (k, v) :: fields, key => if k = key then some v else getField fields key

/-- `value[field]` followed by `as_str()`: a string field of an object,
`none` otherwise (serde's `Value::index` yields `Null` when missing). -/
def strField : Value → String → Option String
  | .obj fields, k =>
    match getField fields k with
    | some (.str s) => some s
    | _ => none
  | _, _ => none

/-- Substring test, for the `key.contains("contents")` heuristic. -/
def containsSub (hay needle : String) : Bool :=
  (findSub hay.data needle.data).isSome

mutual

/-- A compact rendering standing for `serde_json::to_string_pretty`; the
spec places concrete prompt text out of scope and no claim depends on the
rendered form, only on its determinism. -/
def toStringPretty : Value → String
  | .null => "null"
  | .bool b => cond b "true" "false"
  | .num s => s
  | .str s => "\"" ++ s ++ "\""
  | .arr xs => "[" ++ renderArr xs ++ "]"
  | .obj fields => "\x7b" ++ renderObj fields ++ "\x7d"

/-- Comma-joined rendering of array elements. -/
def renderArr : List Value → String
  | [] => ""
  | [v] => toStringPretty v
  | v :: vs => toStringPretty v ++ "," ++ renderArr vs

/-- Comma-joined rendering of object members. -/
def renderObj : List (String × Value) → String
  | [] => ""
  | [(k, v)] => "\"" ++ k ++ "\":" ++ toStringPretty v
  | (k, v) :: fields =>
    "\"" ++ k ++ "\":" ++ toStringPretty v ++ "," ++ renderObj fields

end

/-- The per-item `--- path ---` block of the file-contents rendering. -/
def fileBlock (acc : String) (item : Value) : String :=
  match strField item "path", strField item "content" with
  | some p, some c => acc ++ "\n--- " ++ p ++ " ---\n" ++ c ++ "\n"
  | _, _ => acc

/-- The prompt assembly loop of `AnalyzeStep::execute`: absent source keys
are skipped; keys whose name contains "contents" or "files" and hold an
array are rendered as file blocks; other values are appended pretty
printed. -/
def buildAnalyzePrompt (prompt : String) (sourceKeys : List String)
    (ctx : AnalysisContext) : String :=
  sourceKeys.foldl
    (fun acc key =>
      match ctx.get key with
      | none => acc
      | some data =>
        if containsSub key "contents" || containsSub key "files" then
          match data with
          | .arr items =>
            acc ++ "\n\nFiles (" ++ key ++ ") :\n" ++ items.foldl fileBlock ""
          | _ =>
            acc ++ "\n\n" ++ key ++ " (Context):\n" ++ toStringPretty data
        else
          acc ++ "\n\n" ++ key ++ " (Analysis Result):\n" ++ toStringPretty data)
    prompt

/-- `AnalyzeStep::execute`. -/
def analyzeExec (env : Env) (prompt outputKey : String)
    (sourceKeys : List String) (ctx : AnalysisContext) :
    StepOutcome AnalysisContext × Nat :=
  match env.generateContent (buildAnalyzePrompt prompt sourceKeys ctx) with
  | .error e => (.fail e, 1)
  | .ok response =>
    let result :=
      match extractJson response with
      | .ok j => j
      | .error _ => .str response
    (.ok (ctx.set outputKey result), 1)

/-! ## The pipeline executor (`strategies/mod.rs`) -/

/-- The closed set of step kinds (`AnalysisStep` has exactly these three
implementations in the repository), each carrying its construction-time
configuration. -/
inductive StepDef where
  | selectFiles (prompt : String) (patterns : List String) (maxFiles : Nat)
      (outputKey : String)
  | readFiles (sourceKey outputKey : String)
  | analyze (prompt outputKey : String) (sourceKeys : List String)

/-- The single context key a step writes on success. -/
def StepDef.outputKey : StepDef → String
  | .selectFiles _ _ _ k => k
  | .readFiles _ k => k
  | .analyze _ k _ => k

/-- Dispatch of `step.execute(...)`. -/
def execStep (env : Env) : StepDef → AnalysisContext →
    StepOutcome AnalysisContext × Nat
  | .selectFiles prompt patterns maxFiles outputKey, ctx =>
    selectFilesExec env prompt patterns maxFiles outputKey ctx
  | .readFiles sourceKey outputKey, ctx =>
    readFilesExec env sourceKey outputKey ctx
  | .analyze prompt outputKey sourceKeys, ctx =>
    analyzeExec env prompt outputKey sourceKeys ctx

/-- The step loop of `MultiStepStrategy::run_with_context`: strict
sequence, aborting at the first failure; the progress callback is purely
observational and not modelled.  The second component accumulates the
number of `generate_content` calls. -/
def runSteps (env : Env) : List StepDef → AnalysisContext →
    StepOutcome AnalysisContext × Nat
  | [], ctx => (.ok ctx, 0)
  | s :: rest, ctx =>
    match execStep env s ctx with
    | (.ok ctx2, n) =>
      let r := runSteps env rest ctx2
      (r.1, n + r.2)
    | (.fail e, n) => (.fail e, n)
    | (.crash, n) => (.crash, n)

/-- The context seeding at the top of `run_with_context`: take the given
context or a fresh one, then populate the executor-owned metadata. -/
def initCtx (env : Env) (steps : List StepDef) (request : String)
    (initial : Option AnalysisContext) : AnalysisContext :=
  let ctx := initial.getD (AnalysisContext.new request)
  { ctx with
    metadata :=
      { ctx.metadata with
        model_name := env.modelName
        provider_name := env.providerName
        total_steps := steps.length } }

/-- `MultiStepStrategy::run_with_context`. -/
def runWithContext (env : Env) (steps : List StepDef) (request : String)
    (initial : Option AnalysisContext) : StepOutcome AnalysisContext × Nat :=
  runSteps env steps (initCtx env steps request initial)

/-! ## Order theory of the string sort -/

theorem lexLeB_total (as : List Char) :
    ∀ bs, lexLeB as bs = true ∨ lexLeB bs as = true := by
  induction as with
  | nil => intro bs; left; rfl
  | cons a as ih =>
    intro bs
    cases bs with
    | nil => right; rfl
    | cons b bs =>
      simp only [lexLeB]
      rcases Nat.lt_trichotomy a.toNat b.toNat with h | h | h
      · left; simp [h]
      · have h1 : ¬ a.toNat < b.toNat := by omega
        have h2 : ¬ b.toNat < a.toNat := by omega
        simpa [h1, h2] using ih bs
      · right; simp [h]

theorem lexLeB_trans (as : List Char) :
    ∀ bs cs, lexLeB as bs = true → lexLeB bs cs = true → lexLeB as cs = true := by
  induction as with
  | nil => intro bs cs _ _; rfl
  | cons a as ih =>
    intro bs cs hab hbc
    cases bs with
    | nil => simp [lexLeB] at hab
    | cons b bs =>
      cases cs with
      | nil => simp [lexLeB] at hbc
      | cons c cs =>
        simp only [lexLeB] at hab hbc ⊢
        by_cases h1 : a.toNat < b.toNat
        · by_cases h2 : b.toNat < c.toNat
          · simp [show a.toNat < c.toNat by omega]
          · by_cases h3 : c.toNat < b.toNat
            · simp [h2, h3] at hbc
            · simp [show a.toNat < c.toNat by omega]
        · by_cases h4 : b.toNat < a.toNat
          · simp [h1, h4] at hab
          · by_cases h2 : b.toNat < c.toNat
            · simp [show a.toNat < c.toNat by omega]
            · by_cases h3 : c.toNat < b.toNat
              · simp [h2, h3] at hbc
              · have h5 : ¬ a.toNat < c.toNat := by omega
                have h6 : ¬ c.toNat < a.toNat := by omega
                simp only [h1, h4, if_false] at hab
                simp only [h2, h3, if_false] at hbc
                simpa [h5, h6] using ih bs cs hab hbc

theorem lexLeB_antisymm (as : List Char) :
    ∀ bs, lexLeB as bs = true → lexLeB bs as = true → as = bs := by
  induction as with
  | nil =>
    intro bs _ hba
    cases bs with
    | nil => rfl
    | cons b bs => simp [lexLeB] at hba
  | cons a as ih =>
    intro bs hab hba
    cases bs with
    | nil => simp [lexLeB] at hab
    | cons b bs =>
      simp only [lexLeB] at hab hba
      by_cases h1 : a.toNat < b.toNat
      · simp [h1, show ¬ b.toNat < a.toNat by omega] at hba
      · by_cases h2 : b.toNat < a.toNat
        · simp [h1, h2] at hab
        · have hn : a.toNat = b.toNat := by omega
          have hc : a = b := Char.ext (UInt32.ext hn)
          simp only [h1, h2, if_false] at hab hba
          rw [hc, ih bs hab hba]

instance : IsTotal String strLe := ⟨fun a b => lexLeB_total a.data b.data⟩

instance : IsTrans String strLe :=
  ⟨fun a b c => lexLeB_trans a.data b.data c.data⟩

instance : IsAntisymm String strLe :=
  ⟨fun a b h1 h2 => by
    cases a with
    | mk as =>
      cases b with
      | mk bs => exact congrArg String.mk (lexLeB_antisymm as bs h1 h2)⟩

theorem sortStrings_perm (l : List String) : List.Perm (sortStrings l) l :=
  List.perm_insertionSort _ l

theorem sortStrings_sorted (l : List String) : List.Sorted strLe (sortStrings l) :=
  List.sorted_insertionSort strLe l

/-- Sorting canonicalizes: permuted inputs sort identically.  This is why
the arbitrary `HashSet` iteration order is unobservable. -/
theorem sortStrings_eq_of_perm {l1 l2 : List String} (h : List.Perm l1 l2) :
    sortStrings l1 = sortStrings l2 :=
  List.eq_of_perm_of_sorted
    (((sortStrings_perm l1).trans h).trans (sortStrings_perm l2).symm)
    (sortStrings_sorted l1) (sortStrings_sorted l2)

/-! ## Concrete environments used by witnesses and counterexamples -/

/-- A selection environment: one glob yielding `["b.py","a.py","a.py"]`
(the spec's end-to-end scenario), with the generation response a
parameter and `HashSet` iteration modelled by `List.dedup`. -/
def mkSelEnv (resp : String) : Env :=
  { searchFiles := fun _ => .ok ["b.py", "a.py", "a.py"]
    readFile := fun _ => .error "unused"
    generateContent := fun _ => .ok resp
    modelName := "m", providerName := "p"
    hashEnum := List.dedup }

/-! ## C1: within-budget selection is the sorted deduplicated union -/

/-- C1: for every glob-pattern set whose deduplicated union of matches has
size at most the budget, the File Selection step writes under its output
key exactly that union — deduplicated, sorted lexicographically — and
makes zero text-generation calls. -/
theorem selectFiles_within_budget_sorted_dedup_no_calls
    (env : Env) (prompt : String) (patterns : List String) (maxFiles : Nat)
    (outputKey : String) (ctx : AnalysisContext) (ms : List String)
    (hEnum : ∀ l, List.Perm (env.hashEnum l) l.dedup)
    (hms : collectMatches env patterns = .ok ms)
    (hbudget : ms.dedup.length ≤ maxFiles) :
    ∃ sorted : List String,
      selectFilesExec env prompt patterns maxFiles outputKey ctx
          = (.ok (ctx.set outputKey (.arr (sorted.map .str))), 0) ∧
        List.Sorted strLe sorted ∧ sorted.Nodup ∧ (∀ p, p ∈ sorted ↔ p ∈ ms) := by
  have hcl : List.Perm (sortStrings (env.hashEnum ms)) ms.dedup :=
    (sortStrings_perm _).trans (hEnum ms)
  have hlen : (sortStrings (env.hashEnum ms)).length ≤ maxFiles := by
    rw [hcl.length_eq]; exact hbudget
  refine ⟨sortStrings (env.hashEnum ms), ?_, sortStrings_sorted _,
    hcl.symm.nodup (List.nodup_dedup ms),
    fun p => hcl.mem_iff.trans (List.mem_dedup)⟩
  simp only [selectFilesExec, hms]
  rw [if_pos hlen]

/-- Witness for C1: the spec's end-to-end scenario — three matches
`["b.py","a.py","a.py"]`, budget 5, output `["a.py","b.py"]`, no calls. -/
theorem selectFiles_within_budget_witness :
    (∀ l, List.Perm ((mkSelEnv "unused").hashEnum l) l.dedup) ∧
      collectMatches (mkSelEnv "unused") ["*.py"] = .ok ["b.py", "a.py", "a.py"] ∧
      (["b.py", "a.py", "a.py"] : List String).dedup.length ≤ 5 ∧
      (∃ sorted : List String,
        selectFilesExec (mkSelEnv "unused") "pick" ["*.py"] 5 "out"
            (AnalysisContext.new "r")
            = (.ok ((AnalysisContext.new "r").set "out" (.arr (sorted.map .str))), 0) ∧
          List.Sorted strLe sorted ∧ sorted.Nodup ∧
          (∀ p, p ∈ sorted ↔ p ∈ (["b.py", "a.py", "a.py"] : List String))) :=
  ⟨fun l => List.Perm.refl l.dedup, rfl, by decide,
    selectFiles_within_budget_sorted_dedup_no_calls (mkSelEnv "unused") "pick"
      ["*.py"] 5 "out" (AnalysisContext.new "r") ["b.py", "a.py", "a.py"]
      (fun l => List.Perm.refl l.dedup) rfl (by decide)⟩

/-! ## C2: the over-budget response cleaning can panic -/

/-- C2 (code bug): with candidates over budget, the response `"] ["` —
whose first `'['` lies beyond its last `']'` — makes
`SelectFilesStep::execute` byte-slice with a start index past the end
index, a Rust panic, instead of falling back to the first `budget`
entries of the sorted candidate list. -/
theorem selectFiles_unparsable_response_panics :
    selectFilesExec (mkSelEnv "] [") "pick" ["*.py"] 1 "out"
        (AnalysisContext.new "r")
      = (.crash, 1) := by rfl

/-! ## C3: a successfully parsed selection response is not bounded -/

/-- Counterexample to C3: budget 1, two candidates, and a generation
response parsing to three paths — the step writes all three paths. -/
theorem selectFiles_overbudget_output_exceeds_budget :
    (selectFilesExec (mkSelEnv "[\"x.py\",\"y.py\",\"z.py\"]") "pick" ["*.py"] 1
          "out" (AnalysisContext.new "r")).1
        = .ok ((AnalysisContext.new "r").set "out"
            (.arr (["x.py", "y.py", "z.py"].map .str))) ∧
      1 < (["x.py", "y.py", "z.py"] : List String).length :=
  ⟨rfl, by decide⟩

/-- C3 amended: the written list is bounded by the budget in the
within-budget and fallback cases, but when the over-budget generation
response parses as a JSON string array, the parsed list is written
verbatim and may exceed the budget. -/
theorem selectFiles_parsed_response_written_verbatim
    (env : Env) (prompt : String) (patterns : List String) (maxFiles : Nat)
    (outputKey : String) (ctx : AnalysisContext) (ms : List String)
    (resp span : String) (files : List String)
    (hEnum : ∀ l, List.Perm (env.hashEnum l) l.dedup)
    (hms : collectMatches env patterns = .ok ms)
    (hover : maxFiles < ms.dedup.length)
    (hresp : env.generateContent
        (selectPrompt prompt (sortStrings (env.hashEnum ms)) maxFiles) = .ok resp)
    (hspan : bracketSpan resp = some span)
    (hparse : parseStringArray span = some files) :
    selectFilesExec env prompt patterns maxFiles outputKey ctx
      = (.ok (ctx.set outputKey (.arr (files.map .str))), 1) := by
  have hcl : List.Perm (sortStrings (env.hashEnum ms)) ms.dedup :=
    (sortStrings_perm _).trans (hEnum ms)
  have hlen : ¬ (sortStrings (env.hashEnum ms)).length ≤ maxFiles := by
    rw [hcl.length_eq]; omega
  simp only [selectFilesExec, hms]
  rw [if_neg hlen, hresp]
  simp only [hspan, hparse]

/-- Witness for the amended C3: the counterexample input, where the three
parsed paths are written although the budget is 1. -/
theorem selectFiles_parsed_response_witness :
    (∀ l, List.Perm ((mkSelEnv "[\"x.py\",\"y.py\",\"z.py\"]").hashEnum l) l.dedup) ∧
      collectMatches (mkSelEnv "[\"x.py\",\"y.py\",\"z.py\"]") ["*.py"]
        = .ok ["b.py", "a.py", "a.py"] ∧
      1 < (["b.py", "a.py", "a.py"] : List String).dedup.length ∧
      (mkSelEnv "[\"x.py\",\"y.py\",\"z.py\"]").generateContent
          (selectPrompt "pick"
            (sortStrings ((mkSelEnv "[\"x.py\",\"y.py\",\"z.py\"]").hashEnum
              ["b.py", "a.py", "a.py"])) 1)
        = .ok "[\"x.py\",\"y.py\",\"z.py\"]" ∧
      bracketSpan "[\"x.py\",\"y.py\",\"z.py\"]" = some "[\"x.py\",\"y.py\",\"z.py\"]" ∧
      parseStringArray "[\"x.py\",\"y.py\",\"z.py\"]" = some ["x.py", "y.py", "z.py"] ∧
      selectFilesExec (mkSelEnv "[\"x.py\",\"y.py\",\"z.py\"]") "pick" ["*.py"] 1
          "out" (AnalysisContext.new "r")
        = (.ok ((AnalysisContext.new "r").set "out"
            (.arr (["x.py", "y.py", "z.py"].map .str))), 1) :=
  ⟨fun l => List.Perm.refl l.dedup, rfl, by decide, rfl, rfl, rfl,
    selectFiles_parsed_response_written_verbatim
      (mkSelEnv "[\"x.py\",\"y.py\",\"z.py\"]") "pick" ["*.py"] 1 "out"
      (AnalysisContext.new "r") ["b.py", "a.py", "a.py"]
      "[\"x.py\",\"y.py\",\"z.py\"]" "[\"x.py\",\"y.py\",\"z.py\"]"
      ["x.py", "y.py", "z.py"]
      (fun l => List.Perm.refl l.dedup) rfl (by decide) rfl rfl rfl⟩

/-! ## C4: the extractor's tiers do not all fall through on failure -/

/-- Counterexample to C4: on `"[oops]\n```json\n[1,2]\n```"` tier 1
applies (the trimmed text starts with `'['`), its parse fails, and
extraction fails as a whole — even though the json-tagged fenced block of
tier 2 (interior `"\n[1,2]\n"`) parses successfully.  An earlier tier's
parse failure does not fall through. -/
theorem extractJson_tier_one_failure_aborts :
    extractionFails "[oops]\n```json\n[1,2]\n```" = true ∧
      parseJsonL ("\n[1,2]\n".data) = some (.arr [.num "1", .num "2"]) :=
  ⟨rfl, rfl⟩

/-- C4 amended: the tiers are tried in order of applicability, but an
applicable tier 1 commits: whenever the trimmed text starts with `'{'` or
`'['`, the extraction result is exactly the outcome of parsing the whole
trimmed text — its success is the extraction's success and its failure is
extraction failure, with no fall-through to the later tiers. -/
theorem extractJson_tier_one_commits (text : String)
    (h : startsBrace (trimL text.data) = true) :
    (∀ v, parseJsonL (trimL text.data) = some v → extractJson text = .ok v) ∧
      (parseJsonL (trimL text.data) = none → extractionFails text = true) := by
  constructor
  · intro v hv
    simp only [extractJson, h, if_true, hv, jsonRes]
  · intro hv
    simp only [extractionFails, extractJson, h, if_true, hv, jsonRes]

/-- Witness for the amended C4 at the two parse outcomes: `"[1]"`
(tier-1 success) instantiates the theorem; its success conjunct fires. -/
theorem extractJson_tier_one_commits_witness :
    startsBrace (trimL ("[1]" : String).data) = true ∧
      ((∀ v, parseJsonL (trimL ("[1]" : String).data) = some v →
          extractJson "[1]" = .ok v) ∧
        (parseJsonL (trimL ("[1]" : String).data) = none →
          extractionFails "[1]" = true)) :=
  ⟨rfl, extractJson_tier_one_commits "[1]" rfl⟩

/-! ## C5: file reading yields one record per path, in order -/

theorem strField_content_record (p t : String) :
    strField (.obj [("path", .str p), ("content", .str t)]) "path" = some p ∧
      strField (.obj [("path", .str p), ("content", .str t)]) "content" = some t ∧
      strField (.obj [("path", .str p), ("content", .str t)]) "error" = none := by
  refine ⟨?_, ?_, ?_⟩ <;> simp [strField, getField]

theorem strField_error_record (p e : String) :
    strField (.obj [("path", .str p), ("error", .str e)]) "path" = some p ∧
      strField (.obj [("path", .str p), ("error", .str e)]) "error" = some e ∧
      strField (.obj [("path", .str p), ("error", .str e)]) "content" = none := by
  refine ⟨?_, ?_, ?_⟩ <;> simp [strField, getField]

/-- The read loop succeeds pointwise when no per-file panic occurs. -/
theorem readAll_spec (env : Env) (paths : List String)
    (h : ∀ p ∈ paths, readOne env p ≠ none) :
    ∃ records, readAll env paths = some records ∧
      records.length = paths.length ∧
      ∀ (i : Nat) (hi : i < paths.length) (hr : i < records.length),
        some (records.get ⟨i, hr⟩) = readOne env (paths.get ⟨i, hi⟩) := by
  induction paths with
  | nil => exact ⟨[], rfl, rfl, fun i hi _ => absurd hi (Nat.not_lt_zero i)⟩
  | cons p ps ih =>
    obtain ⟨r, hr⟩ : ∃ r, readOne env p = some r := by
      cases hx : readOne env p with
      | none => exact absurd hx (h p (List.mem_cons_self p ps))
      | some r => exact ⟨r, rfl⟩
    obtain ⟨rs, hrs, hlen, hidx⟩ := ih (fun q hq => h q (List.mem_cons_of_mem p hq))
    refine ⟨r :: rs, ?_, by simpa using hlen, ?_⟩
    · simp [readAll, hr, hrs]
    · intro i hi hri
      cases i with
      | zero => simpa using hr.symm
      | succ n => simpa using hidx n (by simpa using hi) (by simpa using hri)

/-- C5: given a valid path list under the source key (and no truncation
panic on any successfully read content), the File Reading step never
fails because a path is unreadable; it writes exactly one record per
input path, in the original order, and each record carries the path
together with a content field on success and an error field — and no
content field — on failure. -/
theorem readFiles_one_record_per_path (env : Env) (sourceKey outputKey : String)
    (ctx : AnalysisContext) (v : Value) (paths : List String)
    (hget : ctx.get sourceKey = some v)
    (hlist : valueAsStringList v = some paths)
    (hnp : ∀ p ∈ paths, readOne env p ≠ none) :
    ∃ records, readFilesExec env sourceKey outputKey ctx
        = (.ok (ctx.set outputKey (.arr records)), 0) ∧
      records.length = paths.length ∧
      ∀ (i : Nat) (hi : i < paths.length) (hr : i < records.length),
        strField (records.get ⟨i, hr⟩) "path" = some (paths.get ⟨i, hi⟩) ∧
        (∀ e, env.readFile (paths.get ⟨i, hi⟩) = .error e →
          strField (records.get ⟨i, hr⟩) "error" = some e ∧
          strField (records.get ⟨i, hr⟩) "content" = none) ∧
        (∀ c, env.readFile (paths.get ⟨i, hi⟩) = .ok c →
          (∃ t, strField (records.get ⟨i, hr⟩) "content" = some t) ∧
          strField (records.get ⟨i, hr⟩) "error" = none) := by
  obtain ⟨records, hra, hlen, hidx⟩ := readAll_spec env paths hnp
  refine ⟨records, ?_, hlen, ?_⟩
  · simp only [readFilesExec, hget, hlist, hra]
  · intro i hi hr
    have hrec := hidx i hi hr
    cases hread : env.readFile (paths.get ⟨i, hi⟩) with
    | ok c =>
      simp only [readOne, hread] at hrec
      cases ht : rustTruncate c.data with
      | none => rw [ht] at hrec; simp at hrec
      | some t =>
        rw [ht] at hrec
        simp only [Option.map_some'] at hrec
        have heq := Option.some.inj hrec.symm
        rw [← heq]
        refine ⟨(strField_content_record _ _).1, ?_, ?_⟩
        · intro e he; simp at he
        · intro c2 _
          exact ⟨⟨String.mk t, (strField_content_record _ _).2.1⟩,
            (strField_content_record _ _).2.2⟩
    | error e =>
      simp only [readOne, hread] at hrec
      have heq := Option.some.inj hrec.symm
      rw [← heq]
      refine ⟨(strField_error_record _ _).1, ?_, ?_⟩
      · intro e2 he2
        have he3 := Except.error.inj he2
        rw [← he3]
        exact ⟨(strField_error_record _ _).2.1, (strField_error_record _ _).2.2⟩
      · intro c2 hc2; simp at hc2

/-- A reading environment for the C5 witness: `"a"` is readable, every
other path errors. -/
def rdEnv : Env :=
  { searchFiles := fun _ => .error "unused"
    readFile := fun p => if p = "a" then .ok "hello" else .error "No such file"
    generateContent := fun _ => .error "unused"
    modelName := "m", providerName := "p"
    hashEnum := List.dedup }

/-- Witness for C5: paths `["a","b"]` with `"a"` readable and `"b"` not —
the step succeeds with two records. -/
theorem readFiles_one_record_per_path_witness :
    ((AnalysisContext.new "r").set "files" (.arr [.str "a", .str "b"])).get "files"
        = some (.arr [.str "a", .str "b"]) ∧
      valueAsStringList (.arr [.str "a", .str "b"]) = some ["a", "b"] ∧
      (∀ p ∈ (["a", "b"] : List String), readOne rdEnv p ≠ none) ∧
      (∃ records,
        readFilesExec rdEnv "files" "contents"
            ((AnalysisContext.new "r").set "files" (.arr [.str "a", .str "b"]))
          = (.ok ((((AnalysisContext.new "r").set "files"
              (.arr [.str "a", .str "b"]))).set "contents" (.arr records)), 0) ∧
        records.length = (["a", "b"] : List String).length ∧
        ∀ (i : Nat) (hi : i < (["a", "b"] : List String).length)
          (hr : i < records.length),
          strField (records.get ⟨i, hr⟩) "path"
              = some ((["a", "b"] : List String).get ⟨i, hi⟩) ∧
          (∀ e, rdEnv.readFile ((["a", "b"] : List String).get ⟨i, hi⟩) = .error e →
            strField (records.get ⟨i, hr⟩) "error" = some e ∧
            strField (records.get ⟨i, hr⟩) "content" = none) ∧
          (∀ c, rdEnv.readFile ((["a", "b"] : List String).get ⟨i, hi⟩) = .ok c →
            (∃ t, strField (records.get ⟨i, hr⟩) "content" = some t) ∧
            strField (records.get ⟨i, hr⟩) "error" = none)) := by
  have hnp : ∀ p ∈ (["a", "b"] : List String), readOne rdEnv p ≠ none := by
    intro p hp
    simp only [List.mem_cons, List.not_mem_nil, or_false] at hp
    rcases hp with rfl | rfl
    · rw [show readOne rdEnv "a"
          = some (.obj [("path", .str "a"), ("content", .str "hello")]) from rfl]
      exact Option.some_ne_none _
    · rw [show readOne rdEnv "b"
          = some (.obj [("path", .str "b"), ("error", .str "No such file")]) from rfl]
      exact Option.some_ne_none _
  exact ⟨rfl, rfl, hnp,
    readFiles_one_record_per_path rdEnv "files" "contents"
      ((AnalysisContext.new "r").set "files" (.arr [.str "a", .str "b"]))
      (.arr [.str "a", .str "b"]) ["a", "b"] rfl rfl hnp⟩

/-! ## C6: content truncation counts bytes and panics mid-character -/

theorem utf8Len_append (as bs : List Char) :
    utf8Len (as ++ bs) = utf8Len as + utf8Len bs := by
  simp [utf8Len]

theorem utf8Len_replicate (n : Nat) (c : Char) :
    utf8Len (List.replicate n c) = n * c.utf8Size := by
  induction n with
  | zero => simp [utf8Len]
  | succ n ih =>
    rw [List.replicate_succ]
    show c.utf8Size + utf8Len (List.replicate n c) = (n + 1) * c.utf8Size
    rw [ih]; ring

theorem takeBytes_replicate_a (m k : Nat) (cs : List Char) :
    takeBytes (m + k) (List.replicate m 'a' ++ cs)
      = (takeBytes k cs).map (fun t => List.replicate m 'a' ++ t) := by
  induction m with
  | zero =>
    simp only [List.replicate, List.nil_append, Nat.zero_add]
    cases takeBytes k cs <;> simp
  | succ m ih =>
    have h1 : ('a' : Char).utf8Size = 1 := by decide
    rw [List.replicate_succ, List.cons_append]
    show takeBytes (m + 1 + k) ('a' :: (List.replicate m 'a' ++ cs)) = _
    rw [takeBytes, if_neg (by omega), if_pos (by rw [h1]; omega), h1,
      show m + 1 + k - 1 = m + k from by omega, ih]
    cases takeBytes k cs <;> simp [List.replicate_succ]

/-- Content of 49999 ASCII chars followed by two 2-byte chars: 50001
characters, 50003 UTF-8 bytes; byte 50000 falls inside a character. -/
def bigContent : List Char := List.replicate 49999 'a' ++ ['é', 'é']

theorem rustTruncate_bigContent : rustTruncate bigContent = none := by
  have hlen : truncLimit < utf8Len bigContent := by
    rw [bigContent, utf8Len_append, utf8Len_replicate]; decide
  rw [rustTruncate, if_pos hlen]
  have htb : takeBytes truncLimit bigContent = none := by
    rw [bigContent, show truncLimit = 49999 + 1 from rfl, takeBytes_replicate_a,
      show takeBytes 1 ['é', 'é'] = none from rfl]
    rfl
  rw [htb]; rfl

/-- A reading environment whose one file holds `bigContent`. -/
def c6Env : Env :=
  { searchFiles := fun _ => .error "unused"
    readFile := fun _ => .ok (String.mk bigContent)
    generateContent := fun _ => .error "unused"
    modelName := "m", providerName := "p"
    hashEnum := List.dedup }

theorem readOne_none_of_truncate_none (env : Env) (path c : String)
    (hread : env.readFile path = .ok c) (ht : rustTruncate c.data = none) :
    readOne env path = none := by
  simp only [readOne, hread, ht, Option.map_none']

theorem readAll_cons_none (env : Env) (p : String) (ps : List String)
    (h : readOne env p = none) : readAll env (p :: ps) = none := by
  simp only [readAll, h]

theorem readFilesExec_crash (env : Env) (sourceKey outputKey : String)
    (ctx : AnalysisContext) (v : Value) (files : List String)
    (hget : ctx.get sourceKey = some v)
    (hlist : valueAsStringList v = some files)
    (hra : readAll env files = none) :
    readFilesExec env sourceKey outputKey ctx = (.crash, 0) := by
  simp only [readFilesExec, hget, hlist, hra]

/-- C6 (code bug): a successfully read content of 50001 characters —
more than the 50000-character ceiling — does not get truncated to its
first 50000 characters: the code measures and slices *bytes*, and on this
content byte 50000 is not a character boundary, so `&content[..50000]`
panics and the whole File Reading step aborts. -/
theorem readFiles_truncation_panics_on_multibyte :
    bigContent.length = 50001 ∧ truncLimit < utf8Len bigContent ∧
      readFilesExec c6Env "files" "contents"
          ((AnalysisContext.new "r").set "files" (.arr [.str "big.txt"]))
        = (.crash, 0) := by
  refine ⟨?_, ?_, ?_⟩
  · rw [bigContent, List.length_append, List.length_replicate]; rfl
  · rw [bigContent, utf8Len_append, utf8Len_replicate]; decide
  · exact readFilesExec_crash c6Env "files" "contents" _
      (.arr [.str "big.txt"]) ["big.txt"] rfl rfl
      (readAll_cons_none c6Env "big.txt" []
        (readOne_none_of_truncate_none c6Env "big.txt" (String.mk bigContent)
          rfl rustTruncate_bigContent))

/-! ## Executor-level lemmas -/

/-- Every step kind, on success, changes the context by exactly one `set`
of its output key. -/
theorem execStep_ok_set (env : Env) (s : StepDef) (ctx ctx2 : AnalysisContext)
    (n : Nat) (h : execStep env s ctx = (.ok ctx2, n)) :
    ∃ w, ctx2 = ctx.set s.outputKey w := by
  cases s with
  | selectFiles prompt patterns maxFiles outputKey =>
    simp only [execStep, StepDef.outputKey, selectFilesExec] at h ⊢
    cases hm : collectMatches env patterns with
    | error e => simp only [hm] at h; simp at h
    | ok ms =>
      simp only [hm] at h
      by_cases hlen : (sortStrings (env.hashEnum ms)).length ≤ maxFiles
      · rw [if_pos hlen] at h
        simp only [Prod.mk.injEq, StepOutcome.ok.injEq] at h
        exact ⟨_, h.1.symm⟩
      · rw [if_neg hlen] at h
        cases hg : env.generateContent
            (selectPrompt prompt (sortStrings (env.hashEnum ms)) maxFiles) with
        | error e => simp only [hg] at h; simp at h
        | ok resp =>
          simp only [hg] at h
          cases hb : bracketSpan resp with
          | none => simp only [hb] at h; simp at h
          | some span =>
            simp only [hb] at h
            cases hp : parseStringArray span with
            | none =>
              simp only [hp, Prod.mk.injEq, StepOutcome.ok.injEq] at h
              exact ⟨_, h.1.symm⟩
            | some files =>
              simp only [hp, Prod.mk.injEq, StepOutcome.ok.injEq] at h
              exact ⟨_, h.1.symm⟩
  | readFiles sourceKey outputKey =>
    simp only [execStep, StepDef.outputKey, readFilesExec] at h ⊢
    cases hg : ctx.get sourceKey with
    | none => simp only [hg] at h; simp at h
    | some v =>
      simp only [hg] at h
      cases hl : valueAsStringList v with
      | none => simp only [hl] at h; simp at h
      | some files =>
        simp only [hl] at h
        cases hra : readAll env files with
        | none => simp only [hra] at h; simp at h
        | some results =>
          simp only [hra, Prod.mk.injEq, StepOutcome.ok.injEq] at h
          exact ⟨_, h.1.symm⟩
  | analyze prompt outputKey sourceKeys =>
    simp only [execStep, StepDef.outputKey, analyzeExec] at h ⊢
    cases hg : env.generateContent (buildAnalyzePrompt prompt sourceKeys ctx) with
    | error e => simp only [hg] at h; simp at h
    | ok resp =>
      simp only [hg, Prod.mk.injEq, StepOutcome.ok.injEq] at h
      exact ⟨_, h.1.symm⟩

theorem set_metadata_eq (ctx : AnalysisContext) (k : String) (v : Value) :
    (ctx.set k v).metadata = ctx.metadata := rfl

theorem set_request_eq (ctx : AnalysisContext) (k : String) (v : Value) :
    (ctx.set k v).request = ctx.request := rfl

theorem set_data_ne (ctx : AnalysisContext) (k : String) (v : Value)
    (k2 : String) (h : k2 ≠ k) : (ctx.set k v).data k2 = ctx.data k2 := by
  simp [AnalysisContext.set, h]

theorem set_data_isSome (ctx : AnalysisContext) (k : String) (v : Value)
    (k2 : String) (h : (ctx.data k2).isSome) :
    ((ctx.set k v).data k2).isSome := by
  by_cases hk : k2 = k <;> simp [AnalysisContext.set, hk, h]

/-- The step loop, on success, preserves request and metadata, leaves
every key no step names untouched, and never removes a key. -/
theorem runSteps_ok_frame (env : Env) (steps : List StepDef) :
    ∀ ctx ctx2 n, runSteps env steps ctx = (.ok ctx2, n) →
      ctx2.metadata = ctx.metadata ∧ ctx2.request = ctx.request ∧
      (∀ k, (∀ s ∈ steps, StepDef.outputKey s ≠ k) → ctx2.data k = ctx.data k) ∧
      (∀ k, (ctx.data k).isSome → (ctx2.data k).isSome) := by
  induction steps with
  | nil =>
    intro ctx ctx2 n h
    simp only [runSteps, Prod.mk.injEq, StepOutcome.ok.injEq] at h
    rw [← h.1]
    exact ⟨rfl, rfl, fun _ _ => rfl, fun _ hk => hk⟩
  | cons s rest ih =>
    intro ctx ctx2 n h
    simp only [runSteps] at h
    cases hx : execStep env s ctx with
    | mk r m =>
      simp only [hx] at h
      cases r with
      | fail e => simp at h
      | crash => simp at h
      | ok cm =>
        simp only [Prod.mk.injEq] at h
        obtain ⟨w, hw⟩ := execStep_ok_set env s ctx cm m hx
        have hrest : runSteps env rest cm = (.ok ctx2, (runSteps env rest cm).2) := by
          cases hr : runSteps env rest cm with
          | mk r2 n2 =>
            rw [hr] at h
            simp only at h
            rw [h.1]
        obtain ⟨hmeta, hreq, hdata, hsome⟩ :=
          ih cm ctx2 (runSteps env rest cm).2 hrest
        subst hw
        refine ⟨hmeta.trans (set_metadata_eq ctx _ w),
          hreq.trans (set_request_eq ctx _ w), ?_, ?_⟩
        · intro k hk
          have hne : StepDef.outputKey s ≠ k := hk s (List.mem_cons_self s rest)
          rw [hdata k (fun s2 hs2 => hk s2 (List.mem_cons_of_mem s hs2)),
            set_data_ne ctx _ w k (fun hkk => hne hkk.symm)]
        · intro k hk
          exact hsome k (set_data_isSome ctx _ w k hk)

/-- Splitting a step list after a successful prefix: the suffix runs on
the prefix's final context and call counts add up. -/
theorem runSteps_append_ok (env : Env) (xs ys : List StepDef) :
    ∀ ctx c n, runSteps env xs ctx = (.ok c, n) →
      runSteps env (xs ++ ys) ctx
        = ((runSteps env ys c).1, n + (runSteps env ys c).2) := by
  induction xs with
  | nil =>
    intro ctx c n h
    simp only [runSteps, Prod.mk.injEq, StepOutcome.ok.injEq] at h
    obtain ⟨rfl, rfl⟩ := h
    simp [List.nil_append]
  | cons s xs ih =>
    intro ctx c n h
    cases hx : execStep env s ctx with
    | mk r m =>
      simp only [runSteps, hx] at h
      cases r with
      | fail e => simp at h
      | crash => simp at h
      | ok c2 =>
        dsimp only at h
        cases hr : runSteps env xs c2 with
        | mk r2 n2 =>
          rw [hr] at h
          cases r2 with
          | fail e => simp at h
          | crash => simp at h
          | ok a =>
            simp only [Prod.mk.injEq, StepOutcome.ok.injEq] at h
            obtain ⟨rfl, rfl⟩ := h
            simp only [List.cons_append, runSteps, hx, List.append_eq]
            rw [ih c2 a n2 hr]
            simp [Nat.add_assoc]

/-! ## C7: the executor aborts at the first failing step -/

/-- C7: if every step before `s` succeeds and `s` fails, the run's result
is exactly `s`'s error — the steps after `s` (arbitrary `post`) are never
executed, the error is propagated unchanged as the single terminal
outcome, and the generation-call count is the prefix's plus the single
failed attempt's (no retry); the context accumulated by the prefix is
fed to `s` as-is (no rollback happens before the abort). -/
theorem pipeline_aborts_on_first_failure (env : Env) (pre post : List StepDef)
    (s : StepDef) (request : String) (initial : Option AnalysisContext)
    (ctxI : AnalysisContext) (nPre : Nat) (e : String) (nS : Nat)
    (h1 : runSteps env pre (initCtx env (pre ++ s :: post) request initial)
      = (.ok ctxI, nPre))
    (h2 : execStep env s ctxI = (.fail e, nS)) :
    runWithContext env (pre ++ s :: post) request initial = (.fail e, nPre + nS) := by
  rw [runWithContext, runSteps_append_ok env pre (s :: post) _ ctxI nPre h1]
  have hs : runSteps env (s :: post) ctxI = (.fail e, nS) := by
    simp only [runSteps, h2]
  rw [hs]

/-- Witness for C7: an empty prefix and a File Reading step whose
mandatory source key is absent; the pending second step never runs. -/
theorem pipeline_aborts_on_first_failure_witness :
    runSteps (mkSelEnv "unused") []
        (initCtx (mkSelEnv "unused")
          ([] ++ .readFiles "files" "contents" :: [.readFiles "x" "y"]) "r" none)
      = (.ok (initCtx (mkSelEnv "unused")
          ([] ++ .readFiles "files" "contents" :: [.readFiles "x" "y"]) "r" none), 0) ∧
    execStep (mkSelEnv "unused") (.readFiles "files" "contents")
        (initCtx (mkSelEnv "unused")
          ([] ++ .readFiles "files" "contents" :: [.readFiles "x" "y"]) "r" none)
      = (.fail "Key not found: files", 0) ∧
    runWithContext (mkSelEnv "unused")
        ([] ++ .readFiles "files" "contents" :: [.readFiles "x" "y"]) "r" none
      = (.fail "Key not found: files", 0 + 0) :=
  ⟨rfl, rfl,
    pipeline_aborts_on_first_failure (mkSelEnv "unused") [] [.readFiles "x" "y"]
      (.readFiles "files" "contents") "r" none _ 0 "Key not found: files" 0
      rfl rfl⟩

/-! ## C8: seeded keys survive a run unless a step writes them -/

/-- C8: in a run seeded with a prior context, every key no step of the
run names keeps its seed value in the final context, and a key present in
the seed is never removed (only possibly overwritten). -/
theorem pipeline_preserves_seed_keys (env : Env) (steps : List StepDef)
    (request : String) (seed : AnalysisContext) (k : String)
    (ctx2 : AnalysisContext) (n : Nat)
    (h : runWithContext env steps request (some seed) = (.ok ctx2, n)) :
    ((∀ s ∈ steps, StepDef.outputKey s ≠ k) → ctx2.data k = seed.data k) ∧
      ((seed.data k).isSome → (ctx2.data k).isSome) := by
  rw [runWithContext] at h
  obtain ⟨_, _, hdata, hsome⟩ := runSteps_ok_frame env steps _ ctx2 n h
  have hinit : (initCtx env steps request (some seed)).data = seed.data := rfl
  exact ⟨fun hk => (hdata k hk).trans (congrFun hinit k),
    fun hk => hsome k (by rw [hinit]; exact hk)⟩

/-- A seed context carrying a key none of the witness pipelines write. -/
def seedCtx : AnalysisContext := (AnalysisContext.new "r").set "keep" (.str "v")

/-- The final context of the C8 witness run. -/
def c8Ctx : AnalysisContext :=
  (initCtx (mkSelEnv "unused") [.selectFiles "pick" ["*.py"] 5 "out"] "r"
    (some seedCtx)).set "out" (.arr [.str "a.py", .str "b.py"])

/-- Witness for C8: a seeded one-step run; the seeded key `"keep"` is
untouched and still present afterwards. -/
theorem pipeline_preserves_seed_keys_witness :
    runWithContext (mkSelEnv "unused") [.selectFiles "pick" ["*.py"] 5 "out"] "r"
        (some seedCtx) = (.ok c8Ctx, 0) ∧
      (((∀ s ∈ [StepDef.selectFiles "pick" ["*.py"] 5 "out"],
          StepDef.outputKey s ≠ "keep") → c8Ctx.data "keep" = seedCtx.data "keep") ∧
        ((seedCtx.data "keep").isSome → (c8Ctx.data "keep").isSome)) :=
  ⟨rfl, pipeline_preserves_seed_keys (mkSelEnv "unused")
    [.selectFiles "pick" ["*.py"] 5 "out"] "r" seedCtx "keep" c8Ctx 0 rfl⟩

/-! ## C9: runs are deterministic (hash iteration order is unobservable) -/

theorem collectMatches_congr (envA envB : Env)
    (hs : envA.searchFiles = envB.searchFiles) :
    ∀ patterns, collectMatches envA patterns = collectMatches envB patterns := by
  intro patterns
  induction patterns with
  | nil => rfl
  | cons p ps ih => simp only [collectMatches, hs, ih]

theorem readOne_congr (envA envB : Env) (hr : envA.readFile = envB.readFile)
    (p : String) : readOne envA p = readOne envB p := by
  simp only [readOne, hr]

theorem readAll_congr (envA envB : Env) (hr : envA.readFile = envB.readFile) :
    ∀ files, readAll envA files = readAll envB files := by
  intro files
  induction files with
  | nil => rfl
  | cons p ps ih => simp only [readAll, readOne_congr envA envB hr p, ih]

theorem selectFilesExec_congr (envA envB : Env)
    (hs : envA.searchFiles = envB.searchFiles)
    (hg : envA.generateContent = envB.generateContent)
    (hsort : ∀ l, sortStrings (envA.hashEnum l) = sortStrings (envB.hashEnum l)) :
    ∀ prompt patterns maxFiles outputKey ctx,
      selectFilesExec envA prompt patterns maxFiles outputKey ctx
        = selectFilesExec envB prompt patterns maxFiles outputKey ctx := by
  intro prompt patterns maxFiles outputKey ctx
  simp only [selectFilesExec, collectMatches_congr envA envB hs, hsort, hg]

/-- Environments equal on every capability behave identically on every
step, even when their `HashSet` iteration orders differ (the sort
canonicalizes them). -/
theorem execStep_congr (envA envB : Env)
    (hs : envA.searchFiles = envB.searchFiles)
    (hr : envA.readFile = envB.readFile)
    (hg : envA.generateContent = envB.generateContent)
    (hsort : ∀ l, sortStrings (envA.hashEnum l) = sortStrings (envB.hashEnum l))
    (s : StepDef) (ctx : AnalysisContext) :
    execStep envA s ctx = execStep envB s ctx := by
  cases s with
  | selectFiles prompt patterns maxFiles outputKey =>
    exact selectFilesExec_congr envA envB hs hg hsort prompt patterns maxFiles
      outputKey ctx
  | readFiles sourceKey outputKey =>
    simp only [execStep, readFilesExec, readAll_congr envA envB hr]
  | analyze prompt outputKey sourceKeys =>
    simp only [execStep, analyzeExec, hg]

theorem runSteps_congr (envA envB : Env)
    (hs : envA.searchFiles = envB.searchFiles)
    (hr : envA.readFile = envB.readFile)
    (hg : envA.generateContent = envB.generateContent)
    (hsort : ∀ l, sortStrings (envA.hashEnum l) = sortStrings (envB.hashEnum l)) :
    ∀ steps ctx, runSteps envA steps ctx = runSteps envB steps ctx := by
  intro steps
  induction steps with
  | nil => intro ctx; rfl
  | cons s rest ih =>
    intro ctx
    simp only [runSteps, execStep_congr envA envB hs hr hg hsort s ctx]
    cases hx : execStep envB s ctx with
    | mk r m =>
      cases r with
      | fail e => rfl
      | crash => rfl
      | ok c2 =>
        dsimp only
        rw [ih c2]

/-- C9: two runs of the same pipeline over the same seed context, the
same filesystem query results and the same generation responses produce
identical final outcomes (context and call count) — the only run-to-run
nondeterminism, the `HashSet` iteration order in file selection, is
erased by the deterministic sort/dedup. -/
theorem pipeline_deterministic_modulo_hash_order (env : Env)
    (h1 h2 : List String → List String)
    (hp1 : ∀ l, List.Perm (h1 l) l.dedup)
    (hp2 : ∀ l, List.Perm (h2 l) l.dedup)
    (steps : List StepDef) (request : String)
    (initial : Option AnalysisContext) :
    runWithContext { env with hashEnum := h1 } steps request initial
      = runWithContext { env with hashEnum := h2 } steps request initial := by
  have hsort : ∀ l,
      sortStrings (({ env with hashEnum := h1 } : Env).hashEnum l)
        = sortStrings (({ env with hashEnum := h2 } : Env).hashEnum l) := by
    intro l
    exact sortStrings_eq_of_perm ((hp1 l).trans (hp2 l).symm)
  rw [runWithContext, runWithContext,
    show initCtx { env with hashEnum := h1 } steps request initial
        = initCtx { env with hashEnum := h2 } steps request initial from rfl]
  exact runSteps_congr { env with hashEnum := h1 } { env with hashEnum := h2 }
    rfl rfl rfl hsort steps _

/-- Witness for C9: the same pipeline under two different set-iteration
orders (`dedup` and reversed `dedup`) gives identical outcomes. -/
theorem pipeline_deterministic_witness :
    (∀ l : List String, List.Perm (List.dedup l) l.dedup) ∧
      (∀ l : List String, List.Perm l.dedup.reverse l.dedup) ∧
      runWithContext { mkSelEnv "unused" with hashEnum := List.dedup }
          [.selectFiles "pick" ["*.py"] 5 "out"] "r" none
        = runWithContext
            { mkSelEnv "unused" with hashEnum := fun l => l.dedup.reverse }
            [.selectFiles "pick" ["*.py"] 5 "out"] "r" none :=
  ⟨fun l => List.Perm.refl l.dedup, fun l => List.reverse_perm l.dedup,
    pipeline_deterministic_modulo_hash_order (mkSelEnv "unused") List.dedup
      (fun l => l.dedup.reverse) (fun l => List.Perm.refl l.dedup)
      (fun l => List.reverse_perm l.dedup)
      [.selectFiles "pick" ["*.py"] 5 "out"] "r" none⟩

/-! ## C10: only the three executor-owned metadata fields are written -/

/-- C10: a successful run's final metadata is the seed's with exactly
`model_name`, `provider_name` and `total_steps` repopulated by the
executor; in particular `files_read` and `tokens_used` are never written
by any step or by the executor and keep their seed values (empty list and
zero for a fresh context). -/
theorem pipeline_metadata_frame (env : Env) (steps : List StepDef)
    (request : String) (initial : Option AnalysisContext)
    (ctx2 : AnalysisContext) (n : Nat)
    (h : runWithContext env steps request initial = (.ok ctx2, n)) :
    ctx2.metadata
        = { (initial.getD (AnalysisContext.new request)).metadata with
            model_name := env.modelName, provider_name := env.providerName,
            total_steps := steps.length } ∧
      ctx2.metadata.files_read
        = (initial.getD (AnalysisContext.new request)).metadata.files_read ∧
      ctx2.metadata.tokens_used
        = (initial.getD (AnalysisContext.new request)).metadata.tokens_used := by
  rw [runWithContext] at h
  have hmeta := (runSteps_ok_frame env steps _ ctx2 n h).1
  have hini : (initCtx env steps request initial).metadata
      = { (initial.getD (AnalysisContext.new request)).metadata with
          model_name := env.modelName, provider_name := env.providerName,
          total_steps := steps.length } := rfl
  rw [hmeta, hini]
  exact ⟨rfl, rfl, rfl⟩

/-- The final context of the C10 witness run. -/
def c10Ctx : AnalysisContext :=
  (initCtx (mkSelEnv "unused") [.selectFiles "pick" ["*.py"] 5 "out"] "r"
    none).set "out" (.arr [.str "a.py", .str "b.py"])

/-- Witness for C10: a fresh one-step run; `files_read` and `tokens_used`
end as the fresh context's empty list and zero. -/
theorem pipeline_metadata_frame_witness :
    runWithContext (mkSelEnv "unused") [.selectFiles "pick" ["*.py"] 5 "out"] "r"
        none = (.ok c10Ctx, 0) ∧
      (c10Ctx.metadata
          = { ((none : Option AnalysisContext).getD
                (AnalysisContext.new "r")).metadata with
              model_name := (mkSelEnv "unused").modelName
              provider_name := (mkSelEnv "unused").providerName
              total_steps := [StepDef.selectFiles "pick" ["*.py"] 5 "out"].length } ∧
        c10Ctx.metadata.files_read
          = ((none : Option AnalysisContext).getD
              (AnalysisContext.new "r")).metadata.files_read ∧
        c10Ctx.metadata.tokens_used
          = ((none : Option AnalysisContext).getD
              (AnalysisContext.new "r")).metadata.tokens_used) :=
  ⟨rfl, pipeline_metadata_frame (mkSelEnv "unused")
    [.selectFiles "pick" ["*.py"] 5 "out"] "r" none c10Ctx 0 rfl⟩

end Skene
